import Mathlib

/-!
Verification development for the sqlrat session engine.

The definitions below are shallow embeddings of the Go sources:
  * `internal/editor/changes.go` — the mutation ledger (`ChangeTracker`)
  * `internal/app/app.go`        — the commit protocol (`commitChanges`)
  * `internal/ui/highlight.go`   — the SQL formatter and highlighter

Modelling conventions:
  * Go maps (`map[string]string`) are modelled as association lists
    `List (String × String)`; a Go map never holds duplicate keys, so
    theorems that need it take a `Nodup`-keys hypothesis.  Go map
    iteration order is unspecified; the model iterates in list order.
  * Go slices are `List`s; `append(s[:i], s[i+1:]...)` is `List.eraseIdx`.
  * Go's `b[k]` map read yields the zero value `""` for a missing key,
    modelled by `goIndex`.
  * `fmt.Sprintf("%q", s)` is modelled by `goQuote`, faithful for
    identifiers made of printable characters other than `"` and `\`
    (those two are escaped); control-character escapes are not needed
    by any claim.
-/

/-- The literal NULL sentinel used throughout the ledger (`"<NULL>"`). -/
def nullSentinel : String := "<NULL>"

/-- First-match lookup in an association list (Go map read, present case). -/
def lookupKey (m : List (String × String)) (k : String) : Option String :=
  match m with
  | [] => none
  | kv :: rest => if kv.1 = k then some kv.2 else lookupKey rest k

/-- Go map indexing `m[k]`: the stored value, or the zero value `""`. -/
def goIndex (m : List (String × String)) (k : String) : String :=
  match lookupKey m k with
  | some v => v
  | none => ""

/-- `pkMatch` from changes.go: length check, then every key/value pair of
`a` is looked up in `b` (a missing key reads as `""`). -/
def pkMatch (a b : List (String × String)) : Bool :=
  a.length == b.length && a.all (fun kv => goIndex b kv.1 == kv.2)

/-- `CellEdit` from changes.go. -/
structure CellEdit where
  TableName : String
  RowPKValues : List (String × String)
  ColumnName : String
  OldValue : String
  NewValue : String
deriving Repr, DecidableEq

/-- `RowDelete` from changes.go. -/
structure RowDelete where
  TableName : String
  RowPKValues : List (String × String)
deriving Repr, DecidableEq

/-- `RowInsert` from changes.go. -/
structure RowInsert where
  TableName : String
  Values : List (String × String)
deriving Repr, DecidableEq

/-- `OpType` from changes.go. -/
inductive OpType where
  | OpEdit
  | OpDelete
  | OpInsert
deriving Repr, DecidableEq

/-- `UndoEntry` from changes.go (`Type` is a Lean keyword, renamed `Typ`). -/
structure UndoEntry where
  Typ : OpType
  Index : Nat
deriving Repr, DecidableEq

/-- `ChangeTracker` from changes.go. -/
structure ChangeTracker where
  Edits : List CellEdit
  Deletes : List RowDelete
  Inserts : List RowInsert
  undoStack : List UndoEntry
deriving Repr, DecidableEq

/-- `NewChangeTracker`. -/
def NewChangeTracker : ChangeTracker := ⟨[], [], [], []⟩

/-- The cell-matching test of the `StageEdit` scan: `existing` is an edit
already in the ledger, `incoming` the edit being staged. -/
def sameCell (existing incoming : CellEdit) : Bool :=
  existing.TableName == incoming.TableName &&
    existing.ColumnName == incoming.ColumnName &&
    pkMatch existing.RowPKValues incoming.RowPKValues

/-- The scan loop of `StageEdit`: the first edit for the same cell has its
`NewValue` overwritten in place (`some`), otherwise `none`. -/
def overwriteEdit (es : List CellEdit) (edit : CellEdit) : Option (List CellEdit) :=
  match es with
  | [] => none
  | e :: rest =>
    if sameCell e edit then
      some ({ e with NewValue := edit.NewValue } :: rest)
    else
      match overwriteEdit rest edit with
      | some rest2 => some (e :: rest2)
      | none => none

/-- `StageEdit` from changes.go. -/
def StageEdit (ct : ChangeTracker) (edit : CellEdit) : ChangeTracker :=
  match overwriteEdit ct.Edits edit with
  | some es => { ct with Edits := es }
  | none =>
    { ct with
      Edits := ct.Edits ++ [edit],
      undoStack := ct.undoStack ++ [⟨OpType.OpEdit, ct.Edits.length⟩] }

/-- `StageDelete` from changes.go. -/
def StageDelete (ct : ChangeTracker) (del : RowDelete) : ChangeTracker :=
  { ct with
    Deletes := ct.Deletes ++ [del],
    undoStack := ct.undoStack ++ [⟨OpType.OpDelete, ct.Deletes.length⟩] }

/-- `StageInsert` from changes.go. -/
def StageInsert (ct : ChangeTracker) (ins : RowInsert) : ChangeTracker :=
  { ct with
    Inserts := ct.Inserts ++ [ins],
    undoStack := ct.undoStack ++ [⟨OpType.OpInsert, ct.Inserts.length⟩] }

/-- The backwards undo-stack scan in `UnstageDelete`: removes the last
entry satisfying `p` (the Go loop walks from the end and breaks). -/
def removeFirstUndo (p : UndoEntry → Bool) : List UndoEntry → List UndoEntry
  | [] => []
  | u :: us => if p u then us else u :: removeFirstUndo p us

/-- `UnstageDelete` from changes.go: removes the first matching pending
delete and the most recent undo entry recorded with that slice index. -/
def UnstageDelete (ct : ChangeTracker) (tableName : String)
    (pkValues : List (String × String)) : ChangeTracker :=
  match ct.Deletes.findIdx? (fun d => d.TableName == tableName && pkMatch d.RowPKValues pkValues) with
  | none => ct
  | some i =>
    { ct with
      Deletes := ct.Deletes.eraseIdx i,
      undoStack :=
        (removeFirstUndo (fun u => u.Typ == OpType.OpDelete && u.Index == i)
          ct.undoStack.reverse).reverse }

/-- `IsRowDeleted` from changes.go. -/
def IsRowDeleted (ct : ChangeTracker) (tableName : String)
    (pkValues : List (String × String)) : Bool :=
  ct.Deletes.any (fun d => d.TableName == tableName && pkMatch d.RowPKValues pkValues)

/-- `Undo` from changes.go: pops the last undo entry and erases the
referenced index from its owning slice when it is in bounds. -/
def Undo (ct : ChangeTracker) : ChangeTracker :=
  match ct.undoStack.getLast? with
  | none => ct
  | some last =>
    let ct1 : ChangeTracker := { ct with undoStack := ct.undoStack.dropLast }
    match last.Typ with
    | OpType.OpEdit =>
      if last.Index < ct1.Edits.length then
        { ct1 with Edits := ct1.Edits.eraseIdx last.Index }
      else ct1
    | OpType.OpDelete =>
      if last.Index < ct1.Deletes.length then
        { ct1 with Deletes := ct1.Deletes.eraseIdx last.Index }
      else ct1
    | OpType.OpInsert =>
      if last.Index < ct1.Inserts.length then
        { ct1 with Inserts := ct1.Inserts.eraseIdx last.Index }
      else ct1

/-- `HasChanges` from changes.go. -/
def HasChanges (ct : ChangeTracker) : Bool :=
  decide (0 < ct.Edits.length) || decide (0 < ct.Deletes.length) ||
    decide (0 < ct.Inserts.length)

/-- `PendingCount` from changes.go. -/
def PendingCount (ct : ChangeTracker) : Nat :=
  ct.Edits.length + ct.Deletes.length + ct.Inserts.length

/-- `Clear` from changes.go. -/
def Clear (_ : ChangeTracker) : ChangeTracker := ⟨[], [], [], []⟩

/-- `GetCellEdit` from changes.go. -/
def GetCellEdit (ct : ChangeTracker) (tableName : String)
    (pkValues : List (String × String)) (columnName : String) : Option String :=
  match ct.Edits.find? (fun e => e.TableName == tableName && e.ColumnName == columnName &&
      pkMatch e.RowPKValues pkValues) with
  | some e => some e.NewValue
  | none => none

/-- Escape one character for Go `%q` (quote and backslash; identifiers in
the claims contain no control characters). -/
def goEscapeChar (c : Char) : List Char :=
  if c = '\\' then ['\\', '\\']
  else if c = '\"' then ['\\', '\"']
  else [c]

/-- `fmt.Sprintf("%q", s)`: wrap in double quotes, escaping as above. -/
def goQuote (s : String) : String :=
  "\"" ++ String.mk (s.toList.flatMap goEscapeChar) ++ "\""

/-- One iteration of the WHERE-clause loops in `GenerateSQL` (edits and
deletes): accumulator is (whereParts, args, next parameter index). -/
def whereStep (acc : List String × List String × Nat) (kv : String × String) :
    List String × List String × Nat :=
  match acc with
  | (parts, args, idx) =>
    if kv.2 == nullSentinel then
      (parts ++ [goQuote kv.1 ++ " IS NULL"], args, idx)
    else
      (parts ++ [goQuote kv.1 ++ " = $" ++ toString idx], args ++ [kv.2], idx + 1)

/-- The UPDATE generated for one `CellEdit` (query text and bound args),
from the edits loop of `GenerateSQL`. -/
def updateStmt (e : CellEdit) : String × List String :=
  let initArgs : List String := if e.NewValue == nullSentinel then [] else [e.NewValue]
  let setClause : String :=
    if e.NewValue == nullSentinel then goQuote e.ColumnName ++ " = NULL"
    else goQuote e.ColumnName ++ " = $1"
  let w := e.RowPKValues.foldl whereStep ([], initArgs, initArgs.length + 1)
  ("UPDATE " ++ goQuote e.TableName ++ " SET " ++ setClause ++ " WHERE " ++
      String.intercalate " AND " w.1,
    w.2.1)

/-- The DELETE generated for one `RowDelete`, from the deletes loop of
`GenerateSQL`. -/
def deleteStmt (d : RowDelete) : String × List String :=
  let w := d.RowPKValues.foldl whereStep ([], [], 1)
  ("DELETE FROM " ++ goQuote d.TableName ++ " WHERE " ++
      String.intercalate " AND " w.1,
    w.2.1)

/-- One iteration of the inserts loop in `GenerateSQL`: accumulator is
(cols, placeholders, args, next parameter index). -/
def insertStep (acc : List String × List String × List String × Nat)
    (kv : String × String) : List String × List String × List String × Nat :=
  match acc with
  | (cols, phs, args, i) =>
    if kv.2 == nullSentinel then
      (cols ++ [goQuote kv.1], phs ++ ["NULL"], args, i)
    else
      (cols ++ [goQuote kv.1], phs ++ ["$" ++ toString i], args ++ [kv.2], i + 1)

/-- The INSERT generated for one `RowInsert`; `none` when `Values` is empty
(the Go loop `continue`s and emits no statement). -/
def insertStmt (ins : RowInsert) : Option (String × List String) :=
  if ins.Values.length == 0 then none
  else
    let r := ins.Values.foldl insertStep ([], [], [], 1)
    some ("INSERT INTO " ++ goQuote ins.TableName ++ " (" ++
        String.intercalate ", " r.1 ++ ") VALUES (" ++
        String.intercalate ", " r.2.1 ++ ")",
      r.2.2.1)

/-- Appends a generated statement to the accumulator, or skips (`none`
models the `continue` for a valueless insert). -/
def appendIfSome {β : Type} (acc : List β) : Option β → List β
  | none => acc
  | some s => acc ++ [s]

/-- `GenerateSQL` from changes.go: three sequential appending loops over
inserts, edits, deletes.  The parallel Go slices (queries, allArgs) are
modelled as one list of pairs. -/
def GenerateSQL (ct : ChangeTracker) : List (String × List String) :=
  let qs := ct.Inserts.foldl (fun acc ins => appendIfSome acc (insertStmt ins)) []
  let qs := ct.Edits.foldl (fun acc e => acc ++ [updateStmt e]) qs
  ct.Deletes.foldl (fun acc d => acc ++ [deleteStmt d]) qs

/-- Ledger states reachable from `NewChangeTracker` through the exported
mutating operations of changes.go. -/
inductive Reach : ChangeTracker → Prop where
  | new : Reach NewChangeTracker
  | stageEdit {ct} (edit : CellEdit) : Reach ct → Reach (StageEdit ct edit)
  | stageDelete {ct} (del : RowDelete) : Reach ct → Reach (StageDelete ct del)
  | stageInsert {ct} (ins : RowInsert) : Reach ct → Reach (StageInsert ct ins)
  | unstageDelete {ct} (t : String) (pk : List (String × String)) :
      Reach ct → Reach (UnstageDelete ct t pk)
  | undo {ct} : Reach ct → Reach (Undo ct)
  | clear {ct} : Reach ct → Reach (Clear ct)

/-- The database side of the commit protocol, abstracted over a state
type `σ`: `beginErr`/`commitErr` are the (possible) failures of
`tx.Begin`/`tx.Commit`, and `exec` runs one parameterized statement,
either producing a new database state or failing with an error text. -/
structure ExecEnv (σ : Type) where
  beginErr : Option String
  commitErr : Option String
  exec : σ → String × List String → Except String σ

/-- The fields of `commitResultMsg` relevant to the claims, plus the
resulting database state and the number of transactions opened. -/
structure CommitOutcome (σ : Type) where
  err : Option String
  count : Nat
  txOpened : Nat
  dbState : σ
deriving Repr

/-- The statement loop of `commitChanges`: runs statements in order
against the working transaction state, stopping at the first failure. -/
def execStmts {σ : Type} (env : ExecEnv σ) : σ → List (String × List String) → Except String σ
  | st, [] => Except.ok st
  | st, q :: qs =>
    match env.exec st q with
    | Except.error e => Except.error e
    | Except.ok st2 => execStmts env st2 qs

/-- `commitChanges` from app.go: folds the Results pane's inserted rows
into the ledger, generates the statements, and (when there are any)
runs them inside a single transaction, rolling back on first failure.
Returns the outcome together with the ledger as it is left behind
(`Clear` on success happens later, in the coordinator's `Update`). -/
def commitChanges {σ : Type} (env : ExecEnv σ) (st : σ) (ct : ChangeTracker)
    (insertedRows : List RowInsert) : CommitOutcome σ × ChangeTracker :=
  let ct2 := insertedRows.foldl StageInsert ct
  let queries := GenerateSQL ct2
  if queries.length == 0 then
    (⟨none, 0, 0, st⟩, ct2)
  else
    match env.beginErr with
    | some e => (⟨some ("begin transaction: " ++ e), 0, 0, st⟩, ct2)
    | none =>
      match execStmts env st queries with
      | Except.error e => (⟨some ("exec: " ++ e), 0, 1, st⟩, ct2)
      | Except.ok stF =>
        match env.commitErr with
        | some e => (⟨some ("commit: " ++ e), 0, 1, st⟩, ct2)
        | none => (⟨none, queries.length, 1, stF⟩, ct2)

/-- Length of the slice an undo entry of the given kind refers to. -/
def owningLen (ct : ChangeTracker) : OpType → Nat
  | OpType.OpEdit => ct.Edits.length
  | OpType.OpDelete => ct.Deletes.length
  | OpType.OpInsert => ct.Inserts.length

/-- Direct-style characterization of the WHERE-clause fragments built by
`whereStep` starting at parameter index `idx`: a NULL-sentinel key value
yields `col IS NULL` (no parameter), anything else `col = $idx`. -/
def whereSpecParts : List (String × String) → Nat → List String
  | [], _ => []
  | kv :: rest, idx =>
    if kv.2 == nullSentinel then
      (goQuote kv.1 ++ " IS NULL") :: whereSpecParts rest idx
    else
      (goQuote kv.1 ++ " = $" ++ toString idx) :: whereSpecParts rest (idx + 1)

/-- The bound parameters contributed by the key values: the non-NULL
values, in iteration order. -/
def nonNullVals (pks : List (String × String)) : List String :=
  (pks.filter (fun kv => !(kv.2 == nullSentinel))).map Prod.snd

/-- A row key as a Go map: no duplicate column names. -/
abbrev rowKeyNodup (a : List (String × String)) : Prop := (a.map Prod.fst).Nodup

/-- Claim C1 as stated: an empty ledger commits trivially; otherwise one
transaction is opened and the generated statements run in order inside
it, a first failure rolling back (no partial effect) with the error
returned and the staged entries left in place, full success committing
with the statement count. -/
def ClaimC1Prop : Prop :=
  ∀ (σ : Type) (env : ExecEnv σ) (st : σ) (ct : ChangeTracker) (rows : List RowInsert),
    (HasChanges ct = false → rows = [] →
      commitChanges env st ct rows = (⟨none, 0, 0, st⟩, ct)) ∧
    (HasChanges ct = true → env.beginErr = none →
      (commitChanges env st ct rows).1.txOpened = 1 ∧
      (∀ pre q post st2 e,
        GenerateSQL (rows.foldl StageInsert ct) = pre ++ q :: post →
        execStmts env st pre = Except.ok st2 →
        env.exec st2 q = Except.error e →
        (commitChanges env st ct rows).1.err = some ("exec: " ++ e) ∧
        (commitChanges env st ct rows).1.dbState = st ∧
        (commitChanges env st ct rows).2.Edits = ct.Edits ∧
        (commitChanges env st ct rows).2.Deletes = ct.Deletes ∧
        (commitChanges env st ct rows).2.Inserts = ct.Inserts ++ rows) ∧
      (∀ stF,
        execStmts env st (GenerateSQL (rows.foldl StageInsert ct)) = Except.ok stF →
        env.commitErr = none →
        (commitChanges env st ct rows).1.err = none ∧
        (commitChanges env st ct rows).1.count =
          (GenerateSQL (rows.foldl StageInsert ct)).length ∧
        (commitChanges env st ct rows).1.dbState = stF))

/-- Claim C2 as stated: with at least one entry of each kind, the output
is three phases (INSERTs, then UPDATEs, then DELETEs) whose lengths
equal the lengths of the corresponding ledger sequences. -/
def ClaimC2Prop : Prop :=
  ∀ ct : ChangeTracker, ct.Inserts ≠ [] → ct.Edits ≠ [] → ct.Deletes ≠ [] →
    ∃ I U D : List (String × List String),
      GenerateSQL ct = I ++ U ++ D ∧
      (∀ q ∈ I, ∃ r, q.1 = "INSERT INTO " ++ r) ∧
      (∀ q ∈ U, ∃ r, q.1 = "UPDATE " ++ r) ∧
      (∀ q ∈ D, ∃ r, q.1 = "DELETE FROM " ++ r) ∧
      I.length = ct.Inserts.length ∧
      U.length = ct.Edits.length ∧
      D.length = ct.Deletes.length

/-- Claim C4 as stated: the ledger's row-identity equality holds iff the
two mappings agree as maps (same column set, equal values). -/
def ClaimC4Prop : Prop :=
  ∀ a b : List (String × String), rowKeyNodup a → rowKeyNodup b →
    (pkMatch a b = true ↔ ∀ k, lookupKey a k = lookupKey b k)

/-- Claim C6 as stated implies that in every reachable state, popping a
nonempty undo stack removes exactly one staged entry (the one the top
undo entry was recorded for). -/
def ClaimC6Prop : Prop :=
  ∀ ct : ChangeTracker, Reach ct → ∀ u, ct.undoStack.getLast? = some u →
    PendingCount (Undo ct) + 1 = PendingCount ct

/-- Claim C7 as stated: any single staging call followed by `undo()`
restores `pendingCount`, in every ledger state. -/
def ClaimC7Prop : Prop :=
  ∀ ct : ChangeTracker,
    (∀ edit, PendingCount (Undo (StageEdit ct edit)) = PendingCount ct) ∧
    (∀ del, PendingCount (Undo (StageDelete ct del)) = PendingCount ct) ∧
    (∀ ins, PendingCount (Undo (StageInsert ct ins)) = PendingCount ct)

/-! Model of `HighlightSQL` (internal/ui/highlight.go).  The five regex
matchers are modelled as direct scanners over the character list with
the same leftmost, non-overlapping semantics as Go's
`FindAllStringIndex` on these particular patterns; spans are pairs of
character offsets (byte offsets in Go; identical for ASCII input). -/

/-- The style a candidate span was matched with. -/
inductive TokStyle where
  | comment
  | strLit
  | number
  | operator
  | keyword
  | functionName
deriving Repr, DecidableEq

/-- One candidate span (`Token` in highlight.go); `stop` is Go's `End`. -/
structure Tok where
  start : Nat
  stop : Nat
  style : TokStyle
deriving Repr, DecidableEq

/-- `sqlKeywords` from highlight.go. -/
def sqlKeywords : List String :=
  ["SELECT", "FROM", "WHERE", "INSERT", "INTO", "VALUES", "UPDATE", "SET",
   "DELETE", "CREATE", "TABLE", "DROP", "ALTER", "ADD", "COLUMN",
   "PRIMARY", "KEY", "FOREIGN", "REFERENCES", "INDEX", "UNIQUE",
   "NOT", "NULL", "DEFAULT", "AUTO_INCREMENT", "CONSTRAINT",
   "JOIN", "INNER", "LEFT", "RIGHT", "OUTER", "FULL", "CROSS", "ON",
   "AND", "OR", "IN", "BETWEEN", "LIKE", "IS", "AS", "DISTINCT",
   "ORDER", "BY", "GROUP", "HAVING", "LIMIT", "OFFSET",
   "UNION", "ALL", "INTERSECT", "EXCEPT",
   "CASE", "WHEN", "THEN", "ELSE", "END",
   "BEGIN", "COMMIT", "ROLLBACK", "TRANSACTION",
   "GRANT", "REVOKE", "PRIVILEGE",
   "VIEW", "TRIGGER", "PROCEDURE", "FUNCTION",
   "EXECUTE", "EXEC", "CALL",
   "IF", "EXISTS",
   "SERIAL", "BIGSERIAL", "SMALLSERIAL",
   "INT", "INTEGER", "BIGINT", "SMALLINT", "TINYINT",
   "DECIMAL", "NUMERIC", "FLOAT", "DOUBLE", "REAL",
   "CHAR", "VARCHAR", "TEXT", "BLOB",
   "DATE", "TIME", "TIMESTAMP", "DATETIME",
   "BOOLEAN", "BOOL",
   "ARRAY", "JSON", "JSONB", "UUID",
   "CASCADE", "RESTRICT", "NO", "ACTION",
   "ASC", "DESC",
   "TRUE", "FALSE",
   "WITH", "RECURSIVE",
   "RETURNING",
   "TEMP", "TEMPORARY", "UNLOGGED",
   "PARTITION", "PARTITIONED",
   "ANALYZE", "EXPLAIN", "VACUUM"]

/-- `sqlFunctions` from highlight.go. -/
def sqlFunctions : List String :=
  ["COUNT", "SUM", "AVG", "MIN", "MAX",
   "CONCAT", "SUBSTRING", "LENGTH", "UPPER", "LOWER", "TRIM",
   "COALESCE", "NULLIF", "CAST",
   "NOW", "CURRENT_DATE", "CURRENT_TIME", "CURRENT_TIMESTAMP",
   "EXTRACT", "DATE_PART", "TO_CHAR",
   "ROW_NUMBER", "RANK", "DENSE_RANK", "LAG", "LEAD",
   "FIRST_VALUE", "LAST_VALUE",
   "STRING_AGG", "ARRAY_AGG"]

/-- The single-quote character (written by code point to keep source
files free of quote literals). -/
def squote : Char := Char.ofNat 39

/-- ASCII lowercase letter test. -/
def isLowerChar (c : Char) : Bool := decide ('a' ≤ c) && decide (c ≤ 'z')

/-- ASCII uppercase letter test. -/
def isUpperChar (c : Char) : Bool := decide ('A' ≤ c) && decide (c ≤ 'Z')

/-- ASCII digit test. -/
def isDigitChar (c : Char) : Bool := decide ('0' ≤ c) && decide (c ≤ '9')

/-- Letter or underscore (start of a word). -/
def isLetterU (c : Char) : Bool := isLowerChar c || isUpperChar c || c == '_'

/-- Regex word character `[A-Za-z0-9_]`. -/
def isWordChar (c : Char) : Bool := isLetterU c || isDigitChar c

/-- `[=<>!]` (the repeatable operator class). -/
def isOpEq (c : Char) : Bool := c == '=' || c == '<' || c == '>' || c == '!'

/-- `[+\-*/]` (the single-character operator class). -/
def isOpSingle (c : Char) : Bool := c == '+' || c == '-' || c == '*' || c == '/'

/-- Length of the longest prefix satisfying `p`. -/
def countWhile (p : Char → Bool) : List Char → Nat
  | [] => 0
  | c :: cs => if p c then countWhile p cs + 1 else 0

/-- ASCII uppercasing of one character (`strings.ToUpper` on the ASCII
word characters the word scanner produces). -/
def asciiUpperChar (c : Char) : Char :=
  if isLowerChar c then Char.ofNat (c.toNat - 32) else c

/-- ASCII uppercasing of a word. -/
def asciiUpper (s : List Char) : String := String.mk (s.map asciiUpperChar)

/-- All matches of `--[^\n]*`: leftmost, each running to (not including)
the next newline. -/
def scanComments : Nat → List Char → Nat → List (Nat × Nat)
  | 0, _, _ => []
  | _ + 1, [], _ => []
  | fuel + 1, c1 :: rest, i =>
    if c1 == '-' then
      match rest with
      | c2 :: rest2 =>
        if c2 == '-' then
          let n := countWhile (fun c => !(c == '\n')) rest2
          (i, i + 2 + n) :: scanComments fuel (rest2.drop n) (i + 2 + n)
        else scanComments fuel rest (i + 1)
      | [] => []
    else scanComments fuel rest (i + 1)

/-- Body scan for `'(?:[^'\\]|\\.)*'` after the opening quote: number of
characters consumed including the closing quote, and the remainder;
`none` when no closing quote is reachable. -/
def strBody : Nat → List Char → Option (Nat × List Char)
  | 0, _ => none
  | _ + 1, [] => none
  | fuel + 1, c :: rest =>
    if c == squote then some (1, rest)
    else if c == '\\' then
      match rest with
      | [] => none
      | _ :: rest2 => (strBody fuel rest2).map (fun p => (p.1 + 2, p.2))
    else (strBody fuel rest).map (fun p => (p.1 + 1, p.2))

/-- All matches of the single-quoted string regex: leftmost, restarting
one character later after a failed attempt. -/
def scanStrings : Nat → List Char → Nat → List (Nat × Nat)
  | 0, _, _ => []
  | _ + 1, [], _ => []
  | fuel + 1, c :: rest, i =>
    if c == squote then
      match strBody (rest.length + 1) rest with
      | some (n, rest2) => (i, i + 1 + n) :: scanStrings fuel rest2 (i + 1 + n)
      | none => scanStrings fuel rest (i + 1)
    else scanStrings fuel rest (i + 1)

/-- Trailing word boundary: the next character (if any) is a non-word
character. -/
def boundaryAfter : List Char → Bool
  | [] => true
  | c :: _ => !(isWordChar c)

/-- All matches of the number regex with its word boundaries, including
the backtracking that shortens `1.5x` to the match `1`. -/
def scanNumbers : Nat → List Char → Nat → Bool → List (Nat × Nat)
  | 0, _, _, _ => []
  | _ + 1, [], _, _ => []
  | fuel + 1, c :: rest, i, prevWord =>
    if isDigitChar c && !prevWord then
      let d1 := countWhile isDigitChar rest
      let afterInt := rest.drop d1
      match afterInt with
      | '.' :: rest2 =>
        let d2 := countWhile isDigitChar rest2
        let afterFrac := rest2.drop d2
        if decide (0 < d2) && boundaryAfter afterFrac then
          (i, i + 1 + d1 + 1 + d2) :: scanNumbers fuel afterFrac (i + 1 + d1 + 1 + d2) true
        else
          (i, i + 1 + d1) :: scanNumbers fuel afterInt (i + 1 + d1) true
      | _ =>
        if boundaryAfter afterInt then
          (i, i + 1 + d1) :: scanNumbers fuel afterInt (i + 1 + d1) true
        else
          scanNumbers fuel afterInt (i + 1 + d1) true
    else
      scanNumbers fuel rest (i + 1) (isWordChar c)

/-- All matches of `[=<>!]+|[+\-*/]`. -/
def scanOps : Nat → List Char → Nat → List (Nat × Nat)
  | 0, _, _ => []
  | _ + 1, [], _ => []
  | fuel + 1, c :: rest, i =>
    if isOpEq c then
      let n := countWhile isOpEq rest
      (i, i + 1 + n) :: scanOps fuel (rest.drop n) (i + 1 + n)
    else if isOpSingle c then
      (i, i + 1) :: scanOps fuel rest (i + 1)
    else scanOps fuel rest (i + 1)

/-- All matches of `\b[A-Za-z_][A-Za-z0-9_]*\b` with their text: the
maximal word-character runs that start with a letter or underscore. -/
def scanWords : Nat → List Char → Nat → List (Nat × Nat × List Char)
  | 0, _, _ => []
  | _ + 1, [], _ => []
  | fuel + 1, c :: rest, i =>
    if isLetterU c then
      let n := countWhile isWordChar rest
      (i, i + 1 + n, c :: rest.take n) :: scanWords fuel (rest.drop n) (i + 1 + n)
    else if isWordChar c then
      let n := countWhile isWordChar rest
      scanWords fuel (rest.drop n) (i + 1 + n)
    else scanWords fuel rest (i + 1)

/-- The candidate token list of `HighlightSQL`, in the order the Go code
builds it: comments, strings, numbers, operators, then keyword/function
words (plain identifiers are not added). -/
def highlightTokens (s : String) : List Tok :=
  let cs := s.toList
  let n := cs.length + 1
  (scanComments n cs 0).map (fun p => ⟨p.1, p.2, TokStyle.comment⟩) ++
    (scanStrings n cs 0).map (fun p => ⟨p.1, p.2, TokStyle.strLit⟩) ++
    (scanNumbers n cs 0 false).map (fun p => ⟨p.1, p.2, TokStyle.number⟩) ++
    (scanOps n cs 0).map (fun p => ⟨p.1, p.2, TokStyle.operator⟩) ++
    (scanWords n cs 0).filterMap (fun w =>
      let u := asciiUpper w.2.2
      if sqlKeywords.contains u then some ⟨w.1, w.2.1, TokStyle.keyword⟩
      else if sqlFunctions.contains u then some ⟨w.1, w.2.1, TokStyle.functionName⟩
      else none)

/-- Span overlap test (`intervals[i].Start < intervals[j].End &&
intervals[j].Start < intervals[i].End`). -/
def overlapB (a b : Tok) : Bool :=
  decide (a.start < b.stop) && decide (b.start < a.stop)

/-- "`tj` beats `ti`": the condition under which the pairwise loop marks
`i` rather than `j` (`tj` starts earlier, or ties and is longer). -/
def beats (tj ti : Tok) : Bool :=
  decide (tj.start < ti.start) ||
    (decide (tj.start = ti.start) && decide (ti.stop < tj.stop))

/-- One iteration of the pairwise overlap-resolution loop on the pair of
indices `(p.1, p.2)`. -/
def markPair (toks : List Tok) (marks : List Bool) (p : Nat × Nat) : List Bool :=
  match toks.get? p.1, toks.get? p.2 with
  | some ti, some tj =>
    if overlapB ti tj then
      if beats tj ti then marks.set p.1 true else marks.set p.2 true
    else marks
  | _, _ => marks

/-- All index pairs `(i, j)` with `i < j < n`, in the loop order of the
Go code. -/
def pairIdxs (n : Nat) : List (Nat × Nat) :=
  (List.range n).flatMap (fun i => (List.range' (i + 1) (n - (i + 1))).map (fun j => (i, j)))

/-- The `overlapping` flag array after the double loop. -/
def markPass (toks : List Tok) : List Bool :=
  (pairIdxs toks.length).foldl (markPair toks) (List.replicate toks.length false)

/-- The filtered (surviving) token list. -/
def survivorsOf (toks : List Tok) : List Tok :=
  (toks.zip (markPass toks)).filterMap (fun p => if p.2 then none else some p.1)

/-- Surviving spans of `HighlightSQL` for an input (the code then sorts
them by start offset and renders; the claims are about the set). -/
def highlightSurvivors (s : String) : List Tok := survivorsOf (highlightTokens s)

/-- The earlier-starting (tie: longer) member of an overlapping pair. -/
def winnerTok (ti tj : Tok) : Tok := if beats tj ti then tj else ti

/-- Input exhibiting a three-way overlap chain: a quoted string
containing a double dash, followed by more text (built by code points
to avoid quote characters in source). -/
def c9input : String :=
  String.mk [Char.ofNat 39, 'a', ' ', '-', '-', 'b', Char.ofNat 39, ' ', 'x']

/-- Claim C9 as stated: for each overlapping candidate pair the
earlier-starting (tie: longer) span survives; and on
`"SELECT --comment\n1"` the comment span `[7,16)` survives covering
`--comment`, with no keyword span inside it. -/
def ClaimC9Prop : Prop :=
  (∀ (s : String) (i j : Nat) (ti tj : Tok), i < j →
    (highlightTokens s).get? i = some ti →
    (highlightTokens s).get? j = some tj →
    overlapB ti tj = true → winnerTok ti tj ∈ highlightSurvivors s) ∧
  ((⟨7, 16, TokStyle.comment⟩ : Tok) ∈ highlightSurvivors "SELECT --comment\n1" ∧
    ∀ t ∈ highlightSurvivors "SELECT --comment\n1", t.style = TokStyle.keyword →
      t.stop ≤ 7 ∨ 16 ≤ t.start)

/-! Model of `FormatSQL` (internal/ui/highlight.go).  The tokenizer and
emitter are translated branch for branch; Go's byte indexing is
character indexing here (identical on ASCII input), and `strings.ToUpper`
is modelled by ASCII uppercasing.  The Go string scan can slice past the
end of the input (`end += 2` on a backslash at the final position),
which panics; the model returns `none` for exactly those inputs. -/

/-- One lexed segment of `FormatSQL` (`segment` in highlight.go). -/
structure Seg where
  text : List Char
  isToken : Bool
deriving Repr, DecidableEq

/-- The formatter's keyword set: keywords plus functions. -/
def fmtKeywordSet : List String := sqlKeywords ++ sqlFunctions

/-- `majorClauses` from highlight.go. -/
def majorClausesL : List String :=
  ["SELECT", "FROM", "WHERE", "SET", "HAVING", "RETURNING", "VALUES",
   "UNION", "INTERSECT", "EXCEPT"]

/-- `indentClauses` from highlight.go. -/
def indentClausesL : List String := ["AND", "OR"]

/-- `joinKeywords` from highlight.go. -/
def joinKeywordsL : List String :=
  ["JOIN", "INNER", "LEFT", "RIGHT", "FULL", "CROSS", "OUTER"]

/-- The whitespace characters of the tokenizer. -/
def isFmtWs (c : Char) : Bool := c == ' ' || c == '\t' || c == '\n' || c == '\r'

/-- The single-character punctuation set `( ) , ; . *`. -/
def isPunct (c : Char) : Bool :=
  c == '(' || c == ')' || c == ',' || c == ';' || c == '.' || c == '*'

/-- A character that terminates the catch-all run. -/
def isCatchBreak (c : Char) : Bool :=
  isLowerChar c || isUpperChar c || c == '_' || isFmtWs c || c == squote ||
    isPunct c || isDigitChar c

/-- Characters stripped by `strings.TrimSpace` (ASCII portion). -/
def isTrimWs (c : Char) : Bool :=
  c == ' ' || c == '\t' || c == '\n' || c == '\r' ||
    c == Char.ofNat 11 || c == Char.ofNat 12

/-- `strings.TrimSpace` on a character list. -/
def trimSpaceL (l : List Char) : List Char :=
  ((l.dropWhile isTrimWs).reverse.dropWhile isTrimWs).reverse

/-- The string-literal scan of the tokenizer, after the opening quote:
the number of characters consumed (closing quote included, if found);
`none` models the Go slice panic when a backslash at the final position
drives `end` past the input length. -/
def fmtStrScan : Nat → List Char → Option Nat
  | 0, _ => none
  | _ + 1, [] => some 0
  | fuel + 1, c :: rest =>
    if c == '\\' then
      match rest with
      | [] => none
      | _ :: rest2 => (fmtStrScan fuel rest2).map (· + 2)
    else if c == squote then some 1
    else (fmtStrScan fuel rest).map (· + 1)

/-- The `FormatSQL` tokenizer: comments, strings, collapsed whitespace,
words (uppercased when in the keyword set), punctuation, catch-all. -/
def tokenizeFmt : Nat → List Char → Option (List Seg)
  | 0, _ => none
  | _ + 1, [] => some []
  | fuel + 1, c :: rest =>
    if c == '-' && (match rest with | c2 :: _ => c2 == '-' | [] => false) then
      let n := countWhile (fun ch => !(ch == '\n')) (c :: rest)
      (tokenizeFmt fuel ((c :: rest).drop n)).map
        (fun segs => ⟨(c :: rest).take n, false⟩ :: segs)
    else if c == squote then
      match fmtStrScan (rest.length + 1) rest with
      | none => none
      | some n =>
        (tokenizeFmt fuel (rest.drop n)).map
          (fun segs => ⟨c :: rest.take n, false⟩ :: segs)
    else if isFmtWs c then
      let n := countWhile isFmtWs rest
      (tokenizeFmt fuel (rest.drop n)).map (fun segs => ⟨[' '], false⟩ :: segs)
    else if isLetterU c then
      let n := countWhile isWordChar rest
      let word := c :: rest.take n
      let upper := asciiUpper word
      let seg : Seg :=
        if fmtKeywordSet.contains upper then ⟨upper.toList, true⟩ else ⟨word, true⟩
      (tokenizeFmt fuel (rest.drop n)).map (fun segs => seg :: segs)
    else if isPunct c then
      (tokenizeFmt fuel rest).map (fun segs => ⟨[c], false⟩ :: segs)
    else
      let n := countWhile (fun ch => !(isCatchBreak ch)) rest
      (tokenizeFmt fuel (rest.drop n)).map
        (fun segs => ⟨c :: rest.take n, false⟩ :: segs)

/-- Lookahead used for join detection: the uppercased text of the next
segment that is not a single space. -/
def lookaheadFmt : List Seg → String
  | [] => ""
  | s :: rest => if s.text == [' '] then lookaheadFmt rest else asciiUpper s.text

/-- The emission loop of `FormatSQL` (`prevWasNewline` is carried as in
the Go code, although no branch ever sets it to true).  The inner
SELECT/INSERT/UPDATE/DELETE distinction of the major-clause branch is
dropped: under the enclosing `si > 0` guard both legs write one
newline. -/
def emitFmt : List Seg → Nat → Nat → Bool → List Char → List Char
  | [], _, _, _, acc => acc
  | seg :: rest, si, indent, pwn, acc =>
    if !seg.isToken then
      if seg.text == [' '] && pwn then emitFmt rest (si + 1) indent pwn acc
      else if seg.text == [','] then emitFmt rest (si + 1) indent false (acc ++ [','])
      else emitFmt rest (si + 1) indent false (acc ++ seg.text)
    else
      let upper := asciiUpper seg.text
      let isJoinLine := joinKeywordsL.contains upper &&
        (upper == "JOIN" || lookaheadFmt rest == "JOIN" || lookaheadFmt rest == "OUTER")
      if upper == "ORDER" || upper == "GROUP" || upper == "LIMIT" || upper == "OFFSET" then
        emitFmt rest (si + 1) indent false (acc ++ '\n' :: seg.text)
      else if majorClausesL.contains upper && decide (0 < si) then
        let indent2 :=
          if upper == "SELECT" || upper == "FROM" || upper == "WHERE" ||
              upper == "SET" || upper == "HAVING" then 1
          else indent
        emitFmt rest (si + 1) indent2 false (acc ++ '\n' :: seg.text)
      else if isJoinLine then
        emitFmt rest (si + 1) indent false (acc ++ '\n' :: seg.text)
      else if indentClausesL.contains upper then
        emitFmt rest (si + 1) indent false
          (acc ++ '\n' :: (List.replicate (2 * indent) ' ' ++ seg.text))
      else emitFmt rest (si + 1) indent false (acc ++ seg.text)

/-- Split on newlines (the list of lines, at least one). -/
def splitNl : List Char → List (List Char)
  | [] => [[]]
  | c :: rest =>
    if c == '\n' then [] :: splitNl rest
    else
      match splitNl rest with
      | l :: ls => (c :: l) :: ls
      | [] => [[c]]

/-- `strings.TrimRight(line, " \t")`. -/
def trimRightWs (l : List Char) : List Char :=
  (l.reverse.dropWhile (fun c => c == ' ' || c == '\t')).reverse

/-- Join lines with newlines. -/
def joinNl (ls : List (List Char)) : List Char := (ls.intersperse ['\n']).flatten

/-- `FormatSQL` from highlight.go; `none` exactly on the inputs where the
Go function panics (string scan slicing past the end). -/
def FormatSQL (s : String) : Option String :=
  let cs := trimSpaceL s.toList
  if cs.isEmpty then some (String.mk cs)
  else
    (tokenizeFmt (cs.length + 1) cs).map (fun segs =>
      String.mk (trimSpaceL
        (joinNl ((splitNl (emitFmt segs 0 0 false [])).map trimRightWs))))

/-- Formatter input `--c` newline, then a quoted string whose body spans
a newline (characters by code point to keep quote characters out of the
source). -/
def c8input : String :=
  String.mk ['-', '-', 'c', '\n', Char.ofNat 39, 'a', '\n', 'b', Char.ofNat 39]

/-- First formatting of `c8input`: the newline that terminated the
comment is collapsed to a space, pulling the quoted string onto the
comment line. -/
def c8out1 : String :=
  String.mk ['-', '-', 'c', ' ', Char.ofNat 39, 'a', '\n', 'b', Char.ofNat 39]

/-- Second formatting: the comment now swallows the first half of the
string literal, and the string's newline collapses too. -/
def c8out2 : String :=
  String.mk ['-', '-', 'c', ' ', Char.ofNat 39, 'a', ' ', 'b', Char.ofNat 39]

/-- Sample row key `id = 1`. -/
def sampleKey1 : List (String × String) := [("id", "1")]

/-- Sample row key `id = 2`. -/
def sampleKey2 : List (String × String) := [("id", "2")]

/-- Sample pending delete of row `id = 1`. -/
def sampleDel1 : RowDelete := ⟨"t", sampleKey1⟩

/-- Sample pending delete of row `id = 2`. -/
def sampleDel2 : RowDelete := ⟨"t", sampleKey2⟩

/-- Sample pending insert. -/
def sampleIns : RowInsert := ⟨"t", [("id", "9")]⟩

/-- Sample edit of cell (t, id=1, c). -/
def sampleEditB : CellEdit := ⟨"t", sampleKey1, "c", "a", "b"⟩

/-- A second edit of the same cell (t, id=1, c) with a different value. -/
def sampleEditX : CellEdit := ⟨"t", sampleKey1, "c", "b", "x"⟩

/-- An edit of a different cell (t, id=1, c2). -/
def sampleEditD : CellEdit := ⟨"t", sampleKey1, "c2", "a", "b"⟩

/-- Database environment over `Nat` states in which every statement
succeeds and transitions are the identity. -/
def envId : ExecEnv Nat := ⟨none, none, fun st _ => Except.ok st⟩

/-- Database environment over `Nat` states counting executed statements:
the second statement (run from state 1) fails with "boom". -/
def envBoom : ExecEnv Nat :=
  ⟨none, none, fun st _ => if st == 1 then Except.error "boom" else Except.ok (st + 1)⟩

/-- Ledger whose only entry is an insert with no values: `GenerateSQL`
skips it, producing no statements. -/
def ctEmptyIns : ChangeTracker := ⟨[], [], [⟨"t", []⟩], []⟩

/-- Ledger with two staged deletes (two generated statements). -/
def ctTwoDel : ChangeTracker := ⟨[], [sampleDel1, sampleDel2], [], []⟩

/-- Sample edit staging a NULL new value on a row with a mixed key
(one ordinary key value, one NULL-sentinel key value). -/
def sampleEditNull : CellEdit :=
  ⟨"t", [("id", "1"), ("k", nullSentinel)], "c", "a", nullSentinel⟩

/-- Reachable state exhibiting a displaced undo index: stage two deletes,
then unstage the first; the surviving undo entry still records index 1
while the owning sequence now has length 1. -/
def ctC6 : ChangeTracker :=
  UnstageDelete (StageDelete (StageDelete NewChangeTracker sampleDel1) sampleDel2)
    "t" sampleKey1

/-- Ledger holding one staged edit and its undo entry (the state reached
by staging `sampleEditB` on an empty tracker). -/
def ctC7 : ChangeTracker := ⟨[sampleEditB], [], [], [⟨OpType.OpEdit, 0⟩]⟩

/-! ## Helper lemmas -/

theorem eraseIdx_concat_length {α : Type} (l : List α) (x : α) :
    (l ++ [x]).eraseIdx l.length = l := by
  induction l with
  | nil => rfl
  | cons a t ih => simpa [List.eraseIdx] using ih

/-- Unfolded behavior of `Undo` on a nonempty undo stack. -/
theorem undo_cases (ct : ChangeTracker) (u : UndoEntry)
    (h : ct.undoStack.getLast? = some u) :
    (Undo ct).undoStack = ct.undoStack.dropLast ∧
    (u.Typ = OpType.OpEdit →
      (Undo ct).Edits =
        (if u.Index < ct.Edits.length then ct.Edits.eraseIdx u.Index else ct.Edits) ∧
      (Undo ct).Deletes = ct.Deletes ∧ (Undo ct).Inserts = ct.Inserts) ∧
    (u.Typ = OpType.OpDelete →
      (Undo ct).Deletes =
        (if u.Index < ct.Deletes.length then ct.Deletes.eraseIdx u.Index else ct.Deletes) ∧
      (Undo ct).Edits = ct.Edits ∧ (Undo ct).Inserts = ct.Inserts) ∧
    (u.Typ = OpType.OpInsert →
      (Undo ct).Inserts =
        (if u.Index < ct.Inserts.length then ct.Inserts.eraseIdx u.Index else ct.Inserts) ∧
      (Undo ct).Edits = ct.Edits ∧ (Undo ct).Deletes = ct.Deletes) := by
  unfold Undo
  rw [h]
  obtain ⟨t, i⟩ := u
  cases t <;> simp <;> split <;> simp

/-! ## Claim C10 -/

/-- Claim C10: `undo()` on an empty stack leaves the tracker unchanged, and
a popped entry whose index is out of bounds for its owning sequence only
shrinks the undo stack, leaving all three staged sequences unchanged. -/
theorem claim_C10_theorem (ct : ChangeTracker) :
    (ct.undoStack = [] → Undo ct = ct) ∧
    (∀ u, ct.undoStack.getLast? = some u → owningLen ct u.Typ ≤ u.Index →
      (Undo ct).Edits = ct.Edits ∧ (Undo ct).Deletes = ct.Deletes ∧
      (Undo ct).Inserts = ct.Inserts ∧ (Undo ct).undoStack = ct.undoStack.dropLast) := by
  constructor
  · intro h
    unfold Undo
    rw [h]
    rfl
  · intro u h hle
    obtain ⟨hstack, he, hd, hi⟩ := undo_cases ct u h
    obtain ⟨t, i⟩ := u
    cases t
    · obtain ⟨h1, h2, h3⟩ := he rfl
      simp only [owningLen] at hle
      refine ⟨?_, h2, h3, hstack⟩
      rw [h1, if_neg (Nat.not_lt.mpr hle)]
    · obtain ⟨h1, h2, h3⟩ := hd rfl
      simp only [owningLen] at hle
      refine ⟨h2, ?_, h3, hstack⟩
      rw [h1, if_neg (Nat.not_lt.mpr hle)]
    · obtain ⟨h1, h2, h3⟩ := hi rfl
      simp only [owningLen] at hle
      refine ⟨h2, h3, ?_, hstack⟩
      rw [h1, if_neg (Nat.not_lt.mpr hle)]

theorem claim_C10_witness :
    Undo (⟨[], [], [], []⟩ : ChangeTracker) = ⟨[], [], [], []⟩ ∧
    ((Undo ⟨[], [⟨"t", [("id", "1")]⟩], [], [⟨OpType.OpDelete, 7⟩]⟩).Edits =
        (⟨[], [⟨"t", [("id", "1")]⟩], [], [⟨OpType.OpDelete, 7⟩]⟩ : ChangeTracker).Edits ∧
      (Undo ⟨[], [⟨"t", [("id", "1")]⟩], [], [⟨OpType.OpDelete, 7⟩]⟩).Deletes =
        (⟨[], [⟨"t", [("id", "1")]⟩], [], [⟨OpType.OpDelete, 7⟩]⟩ : ChangeTracker).Deletes ∧
      (Undo ⟨[], [⟨"t", [("id", "1")]⟩], [], [⟨OpType.OpDelete, 7⟩]⟩).Inserts =
        (⟨[], [⟨"t", [("id", "1")]⟩], [], [⟨OpType.OpDelete, 7⟩]⟩ : ChangeTracker).Inserts ∧
      (Undo ⟨[], [⟨"t", [("id", "1")]⟩], [], [⟨OpType.OpDelete, 7⟩]⟩).undoStack =
        (⟨[], [⟨"t", [("id", "1")]⟩], [], [⟨OpType.OpDelete, 7⟩]⟩ :
          ChangeTracker).undoStack.dropLast) :=
  ⟨(claim_C10_theorem _).1 rfl,
    (claim_C10_theorem _).2 ⟨OpType.OpDelete, 7⟩ rfl (by decide)⟩

/-! ## Claim C6 -/

/-- Claim C6 (amended): popping a nonempty undo stack shrinks the stack by
one; the owning sequence loses exactly the element currently at the
recorded index when that index is in bounds (the other two sequences are
untouched), and loses nothing when it is out of bounds.  After
`unstageDelete` has shortened the owning sequence, the recorded index may
designate a different entry than the one the undo entry was recorded for,
or no entry at all. -/
theorem claim_C6_theorem (ct : ChangeTracker) (u : UndoEntry)
    (h : ct.undoStack.getLast? = some u) :
    (Undo ct).undoStack = ct.undoStack.dropLast ∧
    (u.Index < owningLen ct u.Typ →
      (u.Typ = OpType.OpEdit → (Undo ct).Edits = ct.Edits.eraseIdx u.Index ∧
        (Undo ct).Deletes = ct.Deletes ∧ (Undo ct).Inserts = ct.Inserts) ∧
      (u.Typ = OpType.OpDelete → (Undo ct).Deletes = ct.Deletes.eraseIdx u.Index ∧
        (Undo ct).Edits = ct.Edits ∧ (Undo ct).Inserts = ct.Inserts) ∧
      (u.Typ = OpType.OpInsert → (Undo ct).Inserts = ct.Inserts.eraseIdx u.Index ∧
        (Undo ct).Edits = ct.Edits ∧ (Undo ct).Deletes = ct.Deletes)) ∧
    (owningLen ct u.Typ ≤ u.Index →
      (Undo ct).Edits = ct.Edits ∧ (Undo ct).Deletes = ct.Deletes ∧
        (Undo ct).Inserts = ct.Inserts) := by
  obtain ⟨hstack, he, hd, hi⟩ := undo_cases ct u h
  obtain ⟨t, i⟩ := u
  refine ⟨hstack, ?_, ?_⟩
  · intro hlt
    cases t
    · simp only [owningLen] at hlt
      obtain ⟨h1, h2, h3⟩ := he rfl
      exact ⟨fun _ => ⟨by rw [h1, if_pos hlt], h2, h3⟩,
        fun hc => OpType.noConfusion hc, fun hc => OpType.noConfusion hc⟩
    · simp only [owningLen] at hlt
      obtain ⟨h1, h2, h3⟩ := hd rfl
      exact ⟨fun hc => OpType.noConfusion hc,
        fun _ => ⟨by rw [h1, if_pos hlt], h2, h3⟩, fun hc => OpType.noConfusion hc⟩
    · simp only [owningLen] at hlt
      obtain ⟨h1, h2, h3⟩ := hi rfl
      exact ⟨fun hc => OpType.noConfusion hc, fun hc => OpType.noConfusion hc,
        fun _ => ⟨by rw [h1, if_pos hlt], h2, h3⟩⟩
  · intro hle
    cases t
    · simp only [owningLen] at hle
      obtain ⟨h1, h2, h3⟩ := he rfl
      exact ⟨by rw [h1, if_neg (Nat.not_lt.mpr hle)], h2, h3⟩
    · simp only [owningLen] at hle
      obtain ⟨h1, h2, h3⟩ := hd rfl
      exact ⟨h2, by rw [h1, if_neg (Nat.not_lt.mpr hle)], h3⟩
    · simp only [owningLen] at hle
      obtain ⟨h1, h2, h3⟩ := hi rfl
      exact ⟨h2, h3, by rw [h1, if_neg (Nat.not_lt.mpr hle)]⟩

/-- Claim C6 as stated is false: in the reachable state `ctC6` the top
undo entry records index 1, but the owning deletes sequence has length 1,
so `undo()` removes no staged entry at all. -/
theorem claim_C6_counterexample : ¬ClaimC6Prop := by
  intro h
  have hr : Reach ctC6 :=
    Reach.unstageDelete _ _ (Reach.stageDelete _ (Reach.stageDelete _ Reach.new))
  have hc := h ctC6 hr ⟨OpType.OpDelete, 1⟩ (by decide)
  exact absurd hc (by decide)

theorem claim_C6_witness :
    (Undo ctC6).undoStack = ctC6.undoStack.dropLast ∧
    ((⟨OpType.OpDelete, 1⟩ : UndoEntry).Index <
        owningLen ctC6 (⟨OpType.OpDelete, 1⟩ : UndoEntry).Typ → True) ∧
    (owningLen ctC6 (⟨OpType.OpDelete, 1⟩ : UndoEntry).Typ ≤
        (⟨OpType.OpDelete, 1⟩ : UndoEntry).Index ∧
      (Undo ctC6).Edits = ctC6.Edits ∧ (Undo ctC6).Deletes = ctC6.Deletes ∧
        (Undo ctC6).Inserts = ctC6.Inserts) := by
  obtain ⟨h1, _, h3⟩ := claim_C6_theorem ctC6 ⟨OpType.OpDelete, 1⟩ (by decide)
  exact ⟨h1, fun _ => trivial, by decide, h3 (by decide)⟩

/-! ## Claim C7 -/

theorem overwriteEdit_length (es : List CellEdit) (edit : CellEdit) (es2 : List CellEdit)
    (h : overwriteEdit es edit = some es2) : es2.length = es.length := by
  induction es generalizing es2 with
  | nil => simp [overwriteEdit] at h
  | cons e rest ih =>
    unfold overwriteEdit at h
    split at h
    · cases h
      simp
    · cases hr : overwriteEdit rest edit with
      | none => rw [hr] at h; cases h
      | some r2 =>
        rw [hr] at h
        cases h
        simp [ih r2 hr]

/-- Claim C7 (amended): a `stageDelete`, `stageInsert`, or non-coalescing
`stageEdit` followed immediately by `undo()` restores the tracker exactly
(hence `pendingCount`); a coalescing `stageEdit` leaves `pendingCount`
unchanged by itself, but pushes no undo entry, so the immediate `undo()`
pops whatever entry was on top before and need not restore the count. -/
theorem claim_C7_theorem (ct : ChangeTracker) :
    (∀ del, Undo (StageDelete ct del) = ct) ∧
    (∀ ins, Undo (StageInsert ct ins) = ct) ∧
    (∀ edit, overwriteEdit ct.Edits edit = none → Undo (StageEdit ct edit) = ct) ∧
    (∀ edit, overwriteEdit ct.Edits edit ≠ none →
      PendingCount (StageEdit ct edit) = PendingCount ct) := by
  refine ⟨?_, ?_, ?_, ?_⟩
  · intro del
    unfold StageDelete Undo
    simp [List.getLast?_concat, List.dropLast_concat, eraseIdx_concat_length]
  · intro ins
    unfold StageInsert Undo
    simp [List.getLast?_concat, List.dropLast_concat, eraseIdx_concat_length]
  · intro edit h
    unfold StageEdit Undo
    rw [h]
    simp [List.getLast?_concat, List.dropLast_concat, eraseIdx_concat_length]
  · intro edit h
    cases hoe : overwriteEdit ct.Edits edit with
    | none => exact absurd hoe h
    | some es2 =>
      unfold StageEdit
      rw [hoe]
      simp [PendingCount, overwriteEdit_length _ _ _ hoe]

/-- Claim C7 as stated is false: in state `ctC7` (one staged edit with its
undo entry), staging a second edit to the same cell coalesces without
pushing an undo entry, so the following `undo()` removes the edit and
`pendingCount` drops from 1 to 0. -/
theorem claim_C7_counterexample : ¬ClaimC7Prop := by
  intro h
  have hc := (h ctC7).1 sampleEditX
  exact absurd hc (by decide)

theorem claim_C7_witness :
    Undo (StageDelete ctC7 sampleDel2) = ctC7 ∧
    Undo (StageInsert ctC7 sampleIns) = ctC7 ∧
    Undo (StageEdit ctC7 sampleEditD) = ctC7 ∧
    PendingCount (StageEdit ctC7 sampleEditX) = PendingCount ctC7 :=
  ⟨(claim_C7_theorem ctC7).1 sampleDel2,
    (claim_C7_theorem ctC7).2.1 sampleIns,
    (claim_C7_theorem ctC7).2.2.1 sampleEditD (by decide),
    (claim_C7_theorem ctC7).2.2.2 sampleEditX (by decide)⟩

/-! ## Claim C3 -/

theorem overwriteEdit_none_iff (es : List CellEdit) (edit : CellEdit) :
    overwriteEdit es edit = none ↔ ∀ e ∈ es, sameCell e edit = false := by
  induction es with
  | nil => simp [overwriteEdit]
  | cons e rest ih =>
    unfold overwriteEdit
    by_cases hc : sameCell e edit = true
    · simp [hc]
    · have hc2 : sameCell e edit = false := Bool.eq_false_iff.mpr hc
      cases hr : overwriteEdit rest edit with
      | none =>
        rw [if_neg hc]
        simp only [List.forall_mem_cons, hc2, true_and]
        simp only [true_iff]
        exact ih.mp hr
      | some r2 =>
        rw [if_neg hc]
        constructor
        · intro habs; simp at habs
        · intro h
          have h2 := ih.mpr (fun x hx => h x (List.mem_cons_of_mem _ hx))
          rw [h2] at hr
          cases hr

theorem overwriteEdit_some_spec (es : List CellEdit) (edit : CellEdit)
    (es2 : List CellEdit) (h : overwriteEdit es edit = some es2) :
    ∃ l1 e l2, es = l1 ++ e :: l2 ∧ (∀ x ∈ l1, sameCell x edit = false) ∧
      sameCell e edit = true ∧
      es2 = l1 ++ { e with NewValue := edit.NewValue } :: l2 := by
  induction es generalizing es2 with
  | nil => simp [overwriteEdit] at h
  | cons e rest ih =>
    unfold overwriteEdit at h
    split at h
    · cases h
      exact ⟨[], e, rest, by simp, by simp, by assumption, by simp⟩
    · cases hr : overwriteEdit rest edit with
      | none => rw [hr] at h; cases h
      | some r2 =>
        rw [hr] at h
        cases h
        obtain ⟨l1, e1, l2, h1, h2, h3, h4⟩ := ih r2 hr
        refine ⟨e :: l1, e1, l2, by simp [h1], ?_, h3, by simp [h4]⟩
        intro x hx
        rcases List.mem_cons.mp hx with rfl | hx
        · simpa using Bool.eq_false_iff.mpr (by assumption)
        · exact h2 x hx

theorem sameCell_newValue_left (e x : CellEdit) (v : String) :
    sameCell { e with NewValue := v } x = sameCell e x := rfl

theorem sameCell_newValue_right (e x : CellEdit) (v : String) :
    sameCell x { e with NewValue := v } = sameCell x e := rfl

/-- Staging an edit preserves the pairwise cell-distinctness of the edits
sequence. -/
theorem stageEdit_pairwise (ct : ChangeTracker) (edit : CellEdit)
    (h : List.Pairwise (fun a b => sameCell a b = false) ct.Edits) :
    List.Pairwise (fun a b => sameCell a b = false) (StageEdit ct edit).Edits := by
  unfold StageEdit
  cases hoe : overwriteEdit ct.Edits edit with
  | none =>
    simp only
    rw [List.pairwise_append]
    refine ⟨h, by simp, ?_⟩
    intro a ha b hb
    rcases List.mem_singleton.mp hb with rfl
    exact (overwriteEdit_none_iff _ _).mp hoe a ha
  | some es2 =>
    simp only
    obtain ⟨l1, e, l2, h1, _, _, h4⟩ := overwriteEdit_some_spec _ _ _ hoe
    subst h4
    rw [h1] at h
    rw [List.pairwise_append] at h ⊢
    obtain ⟨hp1, hp2, hcross⟩ := h
    rw [List.pairwise_cons] at hp2 ⊢
    refine ⟨hp1, ⟨?_, hp2.2⟩, ?_⟩
    · intro y hy
      rw [sameCell_newValue_left]
      exact hp2.1 y hy
    · intro a ha b hb
      rcases List.mem_cons.mp hb with rfl | hb
      · rw [sameCell_newValue_right]
        exact hcross a ha e (List.mem_cons_self _ _)
      · exact hcross a ha b (List.mem_cons_of_mem _ hb)

/-- `Undo` leaves the edits sequence a sublist of what it was. -/
theorem undo_edits_sublist (ct : ChangeTracker) : (Undo ct).Edits.Sublist ct.Edits := by
  unfold Undo
  cases h : ct.undoStack.getLast? with
  | none => exact List.Sublist.refl _
  | some u =>
    obtain ⟨t, i⟩ := u
    cases t <;> simp only
    · split
      · exact List.eraseIdx_sublist _ _
      · exact List.Sublist.refl _
    · split <;> exact List.Sublist.refl _
    · split <;> exact List.Sublist.refl _

/-- `UnstageDelete` does not touch the edits sequence. -/
theorem unstageDelete_edits (ct : ChangeTracker) (t : String)
    (pk : List (String × String)) : (UnstageDelete ct t pk).Edits = ct.Edits := by
  unfold UnstageDelete
  cases h : ct.Deletes.findIdx?
      (fun d => d.TableName == t && pkMatch d.RowPKValues pk) <;> rfl

/-- In every reachable ledger state the edits sequence is pairwise
cell-distinct: no later edit matches an earlier one's cell. -/
theorem reach_edits_pairwise (ct : ChangeTracker) (h : Reach ct) :
    List.Pairwise (fun a b => sameCell a b = false) ct.Edits := by
  induction h with
  | new => simp [NewChangeTracker]
  | stageEdit edit _ ih => exact stageEdit_pairwise _ edit ih
  | stageDelete del _ ih => exact ih
  | stageInsert ins _ ih => exact ih
  | unstageDelete t pk _ ih => rw [unstageDelete_edits]; exact ih
  | undo _ ih => exact ih.sublist (undo_edits_sublist _)
  | clear _ _ => simp [Clear]

/-- Claim C3: after any sequence of ledger operations at most one pending
edit exists per cell (no later edit matches an earlier one's
(table, rowKey, column)), and staging a second edit to an already-staged
cell overwrites that entry's `NewValue` in place: the edits sequence keeps
its length, the other sequences and the undo stack are untouched. -/
theorem claim_C3_theorem :
    (∀ ct, Reach ct → List.Pairwise (fun a b => sameCell a b = false) ct.Edits) ∧
    (∀ ct edit, (∃ e ∈ ct.Edits, sameCell e edit = true) →
      (StageEdit ct edit).undoStack = ct.undoStack ∧
      (StageEdit ct edit).Deletes = ct.Deletes ∧
      (StageEdit ct edit).Inserts = ct.Inserts ∧
      (StageEdit ct edit).Edits.length = ct.Edits.length ∧
      ∃ l1 e l2, ct.Edits = l1 ++ e :: l2 ∧ sameCell e edit = true ∧
        (StageEdit ct edit).Edits = l1 ++ { e with NewValue := edit.NewValue } :: l2) := by
  constructor
  · exact reach_edits_pairwise
  · intro ct edit hex
    cases hoe : overwriteEdit ct.Edits edit with
    | none =>
      obtain ⟨e, he, hce⟩ := hex
      have hf := (overwriteEdit_none_iff _ _).mp hoe e he
      rw [hce] at hf
      cases hf
    | some es2 =>
      obtain ⟨l1, e, l2, h1, _, h3, h4⟩ := overwriteEdit_some_spec _ _ _ hoe
      unfold StageEdit
      rw [hoe]
      exact ⟨rfl, rfl, rfl, overwriteEdit_length _ _ _ hoe,
        l1, e, l2, h1, h3, h4⟩

theorem claim_C3_witness :
    List.Pairwise (fun a b => sameCell a b = false)
      (StageEdit NewChangeTracker sampleEditB).Edits ∧
    ((StageEdit ctC7 sampleEditX).undoStack = ctC7.undoStack ∧
      (StageEdit ctC7 sampleEditX).Deletes = ctC7.Deletes ∧
      (StageEdit ctC7 sampleEditX).Inserts = ctC7.Inserts ∧
      (StageEdit ctC7 sampleEditX).Edits.length = ctC7.Edits.length ∧
      ∃ l1 e l2, ctC7.Edits = l1 ++ e :: l2 ∧ sameCell e sampleEditX = true ∧
        (StageEdit ctC7 sampleEditX).Edits =
          l1 ++ { e with NewValue := sampleEditX.NewValue } :: l2) :=
  ⟨claim_C3_theorem.1 _ (Reach.stageEdit _ Reach.new),
    claim_C3_theorem.2 ctC7 sampleEditX ⟨sampleEditB, by decide, by decide⟩⟩

/-! ## Claim C4 -/

theorem lookupKey_isSome_iff (m : List (String × String)) (k : String) :
    (lookupKey m k).isSome = true ↔ k ∈ m.map Prod.fst := by
  induction m with
  | nil => simp [lookupKey]
  | cons kv rest ih =>
    unfold lookupKey
    by_cases hk : kv.1 = k
    · simp [hk]
    · rw [if_neg hk]
      simp [ih, Ne.symm hk]

theorem lookupKey_of_mem {m : List (String × String)} {k v : String}
    (hm : rowKeyNodup m) (h : (k, v) ∈ m) : lookupKey m k = some v := by
  induction m with
  | nil => cases h
  | cons kv rest ih =>
    unfold lookupKey
    rcases List.mem_cons.mp h with rfl | hrest
    · simp
    · have hk : kv.1 ≠ k := by
        intro hkk
        have : k ∈ rest.map Prod.fst := List.mem_map.mpr ⟨(k, v), hrest, rfl⟩
        rw [rowKeyNodup, List.map_cons, List.nodup_cons] at hm
        exact hm.1 (hkk ▸ this)
      rw [if_neg hk]
      refine ih ?_ hrest
      rw [rowKeyNodup, List.map_cons, List.nodup_cons] at hm
      exact hm.2

/-- Claim C4 (amended): provided none of the first map's values is the
empty string (Go's zero value for a missing key), `pkMatch` coincides
with map equality: same column set and equal values for every column.
Without that proviso the equivalence fails (see the counterexample). -/
theorem claim_C4_theorem (a b : List (String × String))
    (ha : rowKeyNodup a) (hb : rowKeyNodup b)
    (hne : ∀ kv ∈ a, kv.2 ≠ "") :
    pkMatch a b = true ↔ ∀ k, lookupKey a k = lookupKey b k := by
  constructor
  · intro h
    unfold pkMatch at h
    rw [Bool.and_eq_true] at h
    obtain ⟨hlen, hall⟩ := h
    rw [beq_iff_eq] at hlen
    rw [List.all_eq_true] at hall
    have hmem : ∀ kv ∈ a, lookupKey b kv.1 = some kv.2 := by
      intro kv hkv
      have h1 := hall kv hkv
      rw [beq_iff_eq] at h1
      have h2 := hne kv hkv
      unfold goIndex at h1
      cases hl : lookupKey b kv.1 with
      | none => rw [hl] at h1; exact absurd h1.symm h2
      | some w => rw [hl] at h1; exact congrArg some h1
    have hsub : a.map Prod.fst ⊆ b.map Prod.fst := by
      intro k hk
      obtain ⟨kv, hkv, rfl⟩ := List.mem_map.mp hk
      have hs : (lookupKey b kv.1).isSome = true := by rw [hmem kv hkv]; rfl
      exact (lookupKey_isSome_iff b kv.1).mp hs
    have hperm : (a.map Prod.fst).Perm (b.map Prod.fst) := by
      refine (List.subperm_of_subset ha hsub).perm_of_length_le ?_
      simp [hlen]
    intro k
    by_cases hk : k ∈ a.map Prod.fst
    · obtain ⟨kv, hkv, rfl⟩ := List.mem_map.mp hk
      obtain ⟨k2, v⟩ := kv
      rw [lookupKey_of_mem ha hkv, hmem _ hkv]
    · have hk2 : k ∉ b.map Prod.fst := fun hmm => hk (hperm.mem_iff.mpr hmm)
      have h1 : lookupKey a k = none := by
        rcases he : lookupKey a k with _ | w
        · rfl
        · exact absurd ((lookupKey_isSome_iff a k).mp (by rw [he]; rfl)) hk
      have h2 : lookupKey b k = none := by
        rcases he : lookupKey b k with _ | w
        · rfl
        · exact absurd ((lookupKey_isSome_iff b k).mp (by rw [he]; rfl)) hk2
      rw [h1, h2]
  · intro h
    unfold pkMatch
    rw [Bool.and_eq_true]
    have hperm : (a.map Prod.fst).Perm (b.map Prod.fst) := by
      rw [List.perm_ext_iff_of_nodup ha hb]
      intro k
      rw [← lookupKey_isSome_iff, ← lookupKey_isSome_iff, h k]
    constructor
    · rw [beq_iff_eq]
      simpa using hperm.length_eq
    · rw [List.all_eq_true]
      intro kv hkv
      rw [beq_iff_eq]
      have h1 : lookupKey a kv.1 = some kv.2 := by
        obtain ⟨k2, v⟩ := kv
        exact lookupKey_of_mem ha hkv
      unfold goIndex
      rw [← h kv.1, h1]

/-- Claim C4 as stated is false: `pkMatch` reads a missing key as the
empty string, so `[(x, "")]` and `[(y, "")]` match although their
column sets differ. -/
theorem claim_C4_counterexample : ¬ClaimC4Prop := by
  intro h
  have hiff := (h [("x", "")] [("y", "")] (by decide) (by decide)).mp (by decide)
  exact absurd (hiff "x") (by decide)

theorem claim_C4_witness :
    pkMatch [("id", "1")] [("id", "1")] = true ↔
      ∀ k, lookupKey [("id", "1")] k = lookupKey [("id", "1")] k :=
  claim_C4_theorem _ _ (by decide) (by decide) (by decide)

/-! ## Claim C2 -/

theorem foldl_append_map {α β : Type} (l : List α) (f : α → β) (init : List β) :
    l.foldl (fun acc x => acc ++ [f x]) init = init ++ l.map f := by
  induction l generalizing init with
  | nil => simp
  | cons x rest ih => simp [ih]

theorem foldl_append_filterMap {α β : Type} (l : List α) (f : α → Option β)
    (init : List β) :
    l.foldl (fun acc x => appendIfSome acc (f x)) init = init ++ l.filterMap f := by
  induction l generalizing init with
  | nil => simp
  | cons x rest ih =>
    simp only [List.foldl_cons]
    cases hf : f x with
    | none =>
      show List.foldl _ init rest = _
      rw [ih, List.filterMap_cons_none hf]
    | some s =>
      show List.foldl _ (init ++ [s]) rest = _
      rw [ih, List.filterMap_cons_some hf]
      simp

/-- `GenerateSQL` decomposes into its three phases in staging order. -/
theorem generateSQL_eq (ct : ChangeTracker) :
    GenerateSQL ct = ct.Inserts.filterMap insertStmt ++ ct.Edits.map updateStmt ++
      ct.Deletes.map deleteStmt := by
  show (ct.Deletes.foldl (fun acc d => acc ++ [deleteStmt d])
      (ct.Edits.foldl (fun acc e => acc ++ [updateStmt e])
        (ct.Inserts.foldl (fun acc ins => appendIfSome acc (insertStmt ins)) []))) = _
  rw [foldl_append_filterMap ct.Inserts insertStmt [],
    foldl_append_map ct.Edits updateStmt, foldl_append_map ct.Deletes deleteStmt]
  simp

/-- The INSERT phase emits one statement per insert with a nonempty value
map and skips the rest. -/
theorem length_filterMap_insertStmt (l : List RowInsert) :
    (l.filterMap insertStmt).length =
      (l.filter (fun i => !(i.Values.length == 0))).length := by
  induction l with
  | nil => rfl
  | cons i rest ih =>
    by_cases hv : (i.Values.length == 0) = true
    · have hn : insertStmt i = none := by unfold insertStmt; rw [if_pos hv]
      rw [List.filterMap_cons_none hn, List.filter_cons]
      simp [hv, ih]
    · have hs : ∃ q, insertStmt i = some q := by
        unfold insertStmt
        rw [if_neg hv]
        exact ⟨_, rfl⟩
      obtain ⟨q, hq⟩ := hs
      rw [List.filterMap_cons_some hq, List.filter_cons]
      simp [hv, ih]

theorem insertStmt_shape (ins : RowInsert) (q : String × List String)
    (h : insertStmt ins = some q) : ∃ r, q.1 = "INSERT INTO " ++ r := by
  unfold insertStmt at h
  split at h
  · cases h
  · cases h
    exact ⟨_, by rw [String.append_assoc, String.append_assoc, String.append_assoc,
      String.append_assoc, String.append_assoc]⟩

theorem prefix_extend (p x y : String) (h : ∃ r, x = p ++ r) :
    ∃ r, x ++ y = p ++ r := by
  obtain ⟨r, rfl⟩ := h
  exact ⟨r ++ y, by rw [String.append_assoc]⟩

theorem updateStmt_shape (e : CellEdit) : ∃ r, (updateStmt e).1 = "UPDATE " ++ r :=
  prefix_extend _ _ _ (prefix_extend _ _ _ (prefix_extend _ _ _
    (prefix_extend _ _ _ ⟨_, rfl⟩)))

theorem deleteStmt_shape (d : RowDelete) : ∃ r, (deleteStmt d).1 = "DELETE FROM " ++ r :=
  prefix_extend _ _ _ (prefix_extend _ _ _ ⟨_, rfl⟩)

/-- Claim C2 (amended): for a ledger with at least one entry of each kind,
`GenerateSQL` returns the INSERT phase, then the UPDATE phase, then the
DELETE phase, each phase in staging order; the UPDATE and DELETE phases
have exactly one statement per staged edit and delete, while the INSERT
phase has one statement per staged insert with a nonempty value map
(inserts with no values are skipped). -/
theorem claim_C2_theorem (ct : ChangeTracker)
    (_hI : ct.Inserts ≠ []) (_hE : ct.Edits ≠ []) (_hD : ct.Deletes ≠ []) :
    ∃ I U D : List (String × List String),
      GenerateSQL ct = I ++ U ++ D ∧
      I = ct.Inserts.filterMap insertStmt ∧
      U = ct.Edits.map updateStmt ∧
      D = ct.Deletes.map deleteStmt ∧
      (∀ q ∈ I, ∃ r, q.1 = "INSERT INTO " ++ r) ∧
      (∀ q ∈ U, ∃ r, q.1 = "UPDATE " ++ r) ∧
      (∀ q ∈ D, ∃ r, q.1 = "DELETE FROM " ++ r) ∧
      I.length = (ct.Inserts.filter (fun i => !(i.Values.length == 0))).length ∧
      U.length = ct.Edits.length ∧
      D.length = ct.Deletes.length := by
  refine ⟨ct.Inserts.filterMap insertStmt, ct.Edits.map updateStmt,
    ct.Deletes.map deleteStmt, generateSQL_eq ct, rfl, rfl, rfl, ?_, ?_, ?_,
    length_filterMap_insertStmt _, List.length_map _ _, List.length_map _ _⟩
  · intro q hq
    obtain ⟨ins, _, hins⟩ := List.mem_filterMap.mp hq
    exact insertStmt_shape ins q hins
  · intro q hq
    obtain ⟨e, _, rfl⟩ := List.mem_map.mp hq
    exact updateStmt_shape e
  · intro q hq
    obtain ⟨d, _, rfl⟩ := List.mem_map.mp hq
    exact deleteStmt_shape d

/-- Claim C2 as stated is false: an insert whose value map is empty is
skipped by `GenerateSQL`, so with one valueless insert, one edit and one
delete the output has 2 statements, not 3. -/
theorem claim_C2_counterexample : ¬ClaimC2Prop := by
  intro h
  obtain ⟨I, U, D, heq, _, _, _, hI, hU, hD⟩ :=
    h ⟨[sampleEditB], [sampleDel2], [⟨"t", []⟩], []⟩ (by decide) (by decide) (by decide)
  have hlen : (2 : Nat) = I.length + U.length + D.length := by
    have h2 : (GenerateSQL ⟨[sampleEditB], [sampleDel2], [⟨"t", []⟩], []⟩).length = 2 := by
      decide
    rw [← h2, heq]
    simp [Nat.add_assoc]
  rw [hI, hU, hD] at hlen
  simp at hlen

theorem claim_C2_witness :
    ∃ I U D : List (String × List String),
      GenerateSQL ⟨[sampleEditB], [sampleDel2], [sampleIns], []⟩ = I ++ U ++ D ∧
      I = ([sampleIns].filterMap insertStmt) ∧
      U = ([sampleEditB].map updateStmt) ∧
      D = ([sampleDel2].map deleteStmt) ∧
      (∀ q ∈ I, ∃ r, q.1 = "INSERT INTO " ++ r) ∧
      (∀ q ∈ U, ∃ r, q.1 = "UPDATE " ++ r) ∧
      (∀ q ∈ D, ∃ r, q.1 = "DELETE FROM " ++ r) ∧
      I.length = ([sampleIns].filter (fun i => !(i.Values.length == 0))).length ∧
      U.length = ([sampleEditB] : List CellEdit).length ∧
      D.length = ([sampleDel2] : List RowDelete).length :=
  claim_C2_theorem ⟨[sampleEditB], [sampleDel2], [sampleIns], []⟩
    (by decide) (by decide) (by decide)

/-! ## Claim C5 -/

/-- The WHERE-clause fold of `GenerateSQL` appends, for each key value,
an `IS NULL` fragment (NULL sentinel, no parameter) or a `= $idx`
fragment whose value is appended to the args, numbering parameters
consecutively from the start index. -/
theorem whereStep_foldl (pks : List (String × String)) (parts args : List String)
    (idx : Nat) :
    pks.foldl whereStep (parts, args, idx) =
      (parts ++ whereSpecParts pks idx, args ++ nonNullVals pks,
        idx + (pks.filter (fun kv => !(kv.2 == nullSentinel))).length) := by
  induction pks generalizing parts args idx with
  | nil => simp [whereSpecParts, nonNullVals]
  | cons kv rest ih =>
    simp only [List.foldl_cons, whereStep]
    by_cases hv : (kv.2 == nullSentinel) = true
    · rw [if_pos hv, ih]
      simp [whereSpecParts, nonNullVals, List.filter_cons, hv]
    · rw [if_neg hv, ih]
      simp only [whereSpecParts, nonNullVals, List.filter_cons, hv, Bool.not_false,
        Bool.false_eq_true, if_false, if_true, Prod.mk.injEq, List.append_assoc,
        List.singleton_append, List.map_cons, List.length_cons]
      exact ⟨trivial, trivial, by omega⟩

/-- Claim C5: an edit whose new value is the NULL sentinel generates an
UPDATE whose SET clause is the literal `col = NULL` with no bound
parameter for the new value; the WHERE clause binds each non-NULL key
value as a consecutively numbered parameter (starting at $1) and emits
`col IS NULL` with no parameter for a NULL-sentinel key value, the bound
args being exactly the non-NULL key values in order. -/
theorem claim_C5_theorem (e : CellEdit) (h : e.NewValue = nullSentinel) :
    (updateStmt e).1 = "UPDATE " ++ goQuote e.TableName ++ " SET " ++
        (goQuote e.ColumnName ++ " = NULL") ++ " WHERE " ++
        String.intercalate " AND " (whereSpecParts e.RowPKValues 1) ∧
    (updateStmt e).2 = nonNullVals e.RowPKValues := by
  have hb : (e.NewValue == nullSentinel) = true := by rw [h]; exact beq_self_eq_true _
  unfold updateStmt
  simp only [hb, if_true, List.length_nil]
  rw [whereStep_foldl]
  simp

theorem claim_C5_witness :
    (updateStmt sampleEditNull).1 = "UPDATE " ++ goQuote sampleEditNull.TableName ++
        " SET " ++ (goQuote sampleEditNull.ColumnName ++ " = NULL") ++ " WHERE " ++
        String.intercalate " AND " (whereSpecParts sampleEditNull.RowPKValues 1) ∧
    (updateStmt sampleEditNull).2 = nonNullVals sampleEditNull.RowPKValues :=
  claim_C5_theorem sampleEditNull rfl

/-! ## Claim C1 -/

theorem stageInsert_foldl (rows : List RowInsert) (ct : ChangeTracker) :
    (rows.foldl StageInsert ct).Edits = ct.Edits ∧
    (rows.foldl StageInsert ct).Deletes = ct.Deletes ∧
    (rows.foldl StageInsert ct).Inserts = ct.Inserts ++ rows := by
  induction rows generalizing ct with
  | nil => simp
  | cons r rest ih =>
    simp only [List.foldl_cons]
    obtain ⟨h1, h2, h3⟩ := ih (StageInsert ct r)
    refine ⟨h1, h2, ?_⟩
    rw [h3]
    simp [StageInsert]

/-- Executing `pre ++ q :: post` where `pre` succeeds and `q` fails stops
at `q` with its error. -/
theorem execStmts_append_error {σ : Type} (env : ExecEnv σ) (st st2 : σ)
    (pre : List (String × List String)) (q : String × List String)
    (post : List (String × List String)) (e : String)
    (hpre : execStmts env st pre = Except.ok st2) (hq : env.exec st2 q = Except.error e) :
    execStmts env st (pre ++ q :: post) = Except.error e := by
  induction pre generalizing st with
  | nil =>
    cases hpre
    simp only [List.nil_append]
    unfold execStmts
    rw [hq]
  | cons p rest ih =>
    simp only [List.cons_append]
    unfold execStmts
    unfold execStmts at hpre
    cases hp : env.exec st p with
    | error e2 => rw [hp] at hpre; simp at hpre
    | ok st3 =>
      rw [hp] at hpre
      exact ih st3 hpre

theorem commitChanges_empty {σ : Type} (env : ExecEnv σ) (st : σ) (ct : ChangeTracker)
    (rows : List RowInsert)
    (hq : (GenerateSQL (rows.foldl StageInsert ct)).length = 0) :
    commitChanges env st ct rows = (⟨none, 0, 0, st⟩, rows.foldl StageInsert ct) := by
  have hq2 : ((GenerateSQL (rows.foldl StageInsert ct)).length == 0) = true := by
    simp [hq]
  simp only [commitChanges, hq2, if_true]

theorem commitChanges_error {σ : Type} (env : ExecEnv σ) (st : σ) (ct : ChangeTracker)
    (rows : List RowInsert) (e : String)
    (hq : (GenerateSQL (rows.foldl StageInsert ct)).length ≠ 0)
    (hb : env.beginErr = none)
    (hrun : execStmts env st (GenerateSQL (rows.foldl StageInsert ct)) = Except.error e) :
    commitChanges env st ct rows =
      (⟨some ("exec: " ++ e), 0, 1, st⟩, rows.foldl StageInsert ct) := by
  have hq2 : ((GenerateSQL (rows.foldl StageInsert ct)).length == 0) = false := by
    simp [hq]
  simp only [commitChanges, hq2, Bool.false_eq_true, if_false, hb, hrun]

theorem commitChanges_ok {σ : Type} (env : ExecEnv σ) (st stF : σ) (ct : ChangeTracker)
    (rows : List RowInsert)
    (hq : (GenerateSQL (rows.foldl StageInsert ct)).length ≠ 0)
    (hb : env.beginErr = none)
    (hrun : execStmts env st (GenerateSQL (rows.foldl StageInsert ct)) = Except.ok stF)
    (hc : env.commitErr = none) :
    commitChanges env st ct rows =
      (⟨none, (GenerateSQL (rows.foldl StageInsert ct)).length, 1, stF⟩,
        rows.foldl StageInsert ct) := by
  have hq2 : ((GenerateSQL (rows.foldl StageInsert ct)).length == 0) = false := by
    simp [hq]
  simp only [commitChanges, hq2, Bool.false_eq_true, if_false, hb, hrun, hc]

/-- Claim C1 (amended): when the generated statement list is empty — in
particular when the ledger is empty, but also when its only entries are
inserts with no values — commit succeeds with zero statements, no
transaction, and an unchanged database.  When statements exist (and the
transaction opens), exactly one transaction is used: a first statement
failure returns that error wrapped as `exec:`, rolls the database back to
its initial state, and leaves every staged ledger entry in place, while
full success commits and returns the statement count. -/
theorem claim_C1_theorem (σ : Type) (env : ExecEnv σ) (st : σ) (ct : ChangeTracker)
    (rows : List RowInsert) :
    ((GenerateSQL (rows.foldl StageInsert ct)).length = 0 →
      commitChanges env st ct rows = (⟨none, 0, 0, st⟩, rows.foldl StageInsert ct) ∧
      (rows.foldl StageInsert ct).Edits = ct.Edits ∧
      (rows.foldl StageInsert ct).Deletes = ct.Deletes ∧
      (rows.foldl StageInsert ct).Inserts = ct.Inserts ++ rows) ∧
    ((GenerateSQL (rows.foldl StageInsert ct)).length ≠ 0 → env.beginErr = none →
      (∀ pre q post st2 e,
        GenerateSQL (rows.foldl StageInsert ct) = pre ++ q :: post →
        execStmts env st pre = Except.ok st2 →
        env.exec st2 q = Except.error e →
        (commitChanges env st ct rows).1.err = some ("exec: " ++ e) ∧
        (commitChanges env st ct rows).1.count = 0 ∧
        (commitChanges env st ct rows).1.txOpened = 1 ∧
        (commitChanges env st ct rows).1.dbState = st ∧
        (commitChanges env st ct rows).2.Edits = ct.Edits ∧
        (commitChanges env st ct rows).2.Deletes = ct.Deletes ∧
        (commitChanges env st ct rows).2.Inserts = ct.Inserts ++ rows) ∧
      (∀ stF,
        execStmts env st (GenerateSQL (rows.foldl StageInsert ct)) = Except.ok stF →
        env.commitErr = none →
        (commitChanges env st ct rows).1 =
          ⟨none, (GenerateSQL (rows.foldl StageInsert ct)).length, 1, stF⟩)) := by
  obtain ⟨hE, hD, hI⟩ := stageInsert_foldl rows ct
  constructor
  · intro h0
    exact ⟨commitChanges_empty env st ct rows h0, hE, hD, hI⟩
  · intro h0 hb
    constructor
    · intro pre q post st2 e heq hpre hq
      have hrun : execStmts env st (GenerateSQL (rows.foldl StageInsert ct)) =
          Except.error e := by
        rw [heq]
        exact execStmts_append_error env st st2 pre q post e hpre hq
      rw [commitChanges_error env st ct rows e h0 hb hrun]
      exact ⟨rfl, rfl, rfl, rfl, hE, hD, hI⟩
    · intro stF hrun hc
      rw [commitChanges_ok env st stF ct rows h0 hb hrun hc]

/-- Claim C1 as stated is false on one point: a nonempty ledger does not
always open a transaction.  A ledger whose only entry is a valueless
insert generates no statements, and `commitChanges` returns success
without beginning a transaction. -/
theorem claim_C1_counterexample : ¬ClaimC1Prop := by
  intro h
  have h2 := ((h Nat envId 0 ctEmptyIns []).2 (by decide) rfl).1
  exact absurd h2 (by decide)

theorem claim_C1_witness :
    (commitChanges envBoom 0 ctTwoDel []).1.err = some ("exec: " ++ "boom") ∧
    (commitChanges envBoom 0 ctTwoDel []).1.count = 0 ∧
    (commitChanges envBoom 0 ctTwoDel []).1.txOpened = 1 ∧
    (commitChanges envBoom 0 ctTwoDel []).1.dbState = 0 ∧
    (commitChanges envBoom 0 ctTwoDel []).2.Edits = ctTwoDel.Edits ∧
    (commitChanges envBoom 0 ctTwoDel []).2.Deletes = ctTwoDel.Deletes ∧
    (commitChanges envBoom 0 ctTwoDel []).2.Inserts = ctTwoDel.Inserts ++ [] :=
  (((claim_C1_theorem Nat envBoom 0 ctTwoDel []).2 (by decide) rfl).1
    [deleteStmt sampleDel1] (deleteStmt sampleDel2) [] 1 "boom" (by decide) rfl rfl)

/-! ## Claim C9 -/

theorem get?_some_lt {α : Type} {l : List α} {k : Nat} {a : α}
    (h : l.get? k = some a) : k < l.length := by
  by_contra hk
  rw [List.get?_eq_none.mpr (by omega)] at h
  cases h

theorem markPair_length (toks : List Tok) (marks : List Bool) (p : Nat × Nat) :
    (markPair toks marks p).length = marks.length := by
  unfold markPair
  cases toks.get? p.1 with
  | none => rfl
  | some ti =>
    cases toks.get? p.2 with
    | none => rfl
    | some tj =>
      simp only
      split
      · split <;> simp [List.length_set]
      · rfl

theorem set_preserves_true (marks : List Bool) (i k : Nat)
    (h : marks.get? k = some true) : (marks.set i true).get? k = some true := by
  by_cases hik : i = k
  · subst hik
    have hlt : i < marks.length := get?_some_lt h
    rw [List.get?_eq_getElem?, List.getElem?_set_eq_of_lt _ hlt]
  · rw [List.get?_eq_getElem?, List.getElem?_set_ne hik, ← List.get?_eq_getElem?]
    exact h

theorem markPair_preserves_true (toks : List Tok) (marks : List Bool)
    (p : Nat × Nat) (k : Nat) (h : marks.get? k = some true) :
    (markPair toks marks p).get? k = some true := by
  unfold markPair
  cases toks.get? p.1 with
  | none => exact h
  | some ti =>
    cases toks.get? p.2 with
    | none => exact h
    | some tj =>
      simp only
      split
      · split <;> exact set_preserves_true _ _ _ h
      · exact h

theorem foldl_markPair_preserves_true (toks : List Tok) (ps : List (Nat × Nat))
    (marks : List Bool) (k : Nat) (h : marks.get? k = some true) :
    ((ps.foldl (markPair toks) marks).get? k = some true) := by
  induction ps generalizing marks with
  | nil => exact h
  | cons p rest ih =>
    simp only [List.foldl_cons]
    exact ih _ (markPair_preserves_true toks marks p k h)

theorem foldl_markPair_length (toks : List Tok) (ps : List (Nat × Nat))
    (marks : List Bool) : (ps.foldl (markPair toks) marks).length = marks.length := by
  induction ps generalizing marks with
  | nil => rfl
  | cons p rest ih => simp only [List.foldl_cons]; rw [ih, markPair_length]

theorem markPair_marks_loser (toks : List Tok) (marks : List Bool) (i j : Nat)
    (ti tj : Tok) (hti : toks.get? i = some ti) (htj : toks.get? j = some tj)
    (hov : overlapB ti tj = true) (hlen : marks.length = toks.length) :
    (markPair toks marks (i, j)).get? (if beats tj ti then i else j) = some true := by
  unfold markPair
  simp only [hti, htj]
  rw [if_pos hov]
  have hilt : i < marks.length := by rw [hlen]; exact get?_some_lt hti
  have hjlt : j < marks.length := by rw [hlen]; exact get?_some_lt htj
  by_cases hb : beats tj ti = true
  · rw [if_pos hb, if_pos hb, List.get?_eq_getElem?, List.getElem?_set_eq_of_lt _ hilt]
  · rw [if_neg hb, if_neg hb, List.get?_eq_getElem?, List.getElem?_set_eq_of_lt _ hjlt]

theorem foldl_markPair_marks_loser (toks : List Tok) (ps : List (Nat × Nat))
    (marks : List Bool) (i j : Nat) (ti tj : Tok) (hmem : (i, j) ∈ ps)
    (hti : toks.get? i = some ti) (htj : toks.get? j = some tj)
    (hov : overlapB ti tj = true) (hlen : marks.length = toks.length) :
    ((ps.foldl (markPair toks) marks).get? (if beats tj ti then i else j) = some true) := by
  induction ps generalizing marks with
  | nil => cases hmem
  | cons p rest ih =>
    simp only [List.foldl_cons]
    rcases List.mem_cons.mp hmem with rfl | hmem2
    · exact foldl_markPair_preserves_true toks rest _ _
        (markPair_marks_loser toks marks i j ti tj hti htj hov hlen)
    · exact ih (markPair toks marks p) hmem2 (by rw [markPair_length]; exact hlen)

theorem pairIdxs_mem (i j n : Nat) (hij : i < j) (hj : j < n) : (i, j) ∈ pairIdxs n := by
  unfold pairIdxs
  rw [List.mem_flatMap]
  refine ⟨i, List.mem_range.mpr (lt_trans hij hj), ?_⟩
  rw [List.mem_map]
  refine ⟨j, List.mem_range'_1.mpr ⟨hij, ?_⟩, rfl⟩
  omega

/-- In the finished mark array, the losing side of every overlapping
candidate pair is marked. -/
theorem markPass_marks_loser (toks : List Tok) (i j : Nat) (ti tj : Tok)
    (hij : i < j) (hti : toks.get? i = some ti) (htj : toks.get? j = some tj)
    (hov : overlapB ti tj = true) :
    (markPass toks).get? (if beats tj ti then i else j) = some true := by
  unfold markPass
  have hj : j < toks.length := get?_some_lt htj
  exact foldl_markPair_marks_loser toks _ _ i j ti tj (pairIdxs_mem i j _ hij hj)
    hti htj hov (List.length_replicate _ _)

theorem mem_filterMapZip {toks : List Tok} {marks : List Bool} {t : Tok}
    (h : t ∈ (toks.zip marks).filterMap (fun p => if p.2 then none else some p.1)) :
    ∃ k, toks.get? k = some t ∧ marks.get? k = some false := by
  induction toks generalizing marks with
  | nil => simp at h
  | cons t0 ts ih =>
    cases marks with
    | nil => simp at h
    | cons m ms =>
      rw [List.zip_cons_cons, List.filterMap_cons] at h
      by_cases hm : m = true
      · subst hm
        simp only [if_true] at h
        obtain ⟨k, h1, h2⟩ := ih h
        exact ⟨k + 1, by simpa using h1, by simpa using h2⟩
      · have hm2 : m = false := by simpa using hm
        subst hm2
        simp only [Bool.false_eq_true, if_false] at h
        rcases List.mem_cons.mp h with rfl | h2
        · exact ⟨0, rfl, rfl⟩
        · obtain ⟨k, h1, h3⟩ := ih h2
          exact ⟨k + 1, by simpa using h1, by simpa using h3⟩

theorem pairwise_filterMapZip (R : Tok → Tok → Prop) (toks : List Tok)
    (marks : List Bool)
    (h : ∀ k1 k2 t1 t2, k1 < k2 → toks.get? k1 = some t1 → toks.get? k2 = some t2 →
      marks.get? k1 = some false → marks.get? k2 = some false → R t1 t2) :
    List.Pairwise R ((toks.zip marks).filterMap (fun p => if p.2 then none else some p.1)) := by
  induction toks generalizing marks with
  | nil => simp
  | cons t0 ts ih =>
    cases marks with
    | nil => simp
    | cons m ms =>
      rw [List.zip_cons_cons, List.filterMap_cons]
      by_cases hm : m = true
      · subst hm
        simp only [if_true]
        refine ih ms ?_
        intro k1 k2 t1 t2 hk h1 h2 h3 h4
        exact h (k1 + 1) (k2 + 1) t1 t2 (by omega) (by simpa using h1)
          (by simpa using h2) (by simpa using h3) (by simpa using h4)
      · have hm2 : m = false := by simpa using hm
        subst hm2
        simp only [Bool.false_eq_true, if_false]
        rw [List.pairwise_cons]
        constructor
        · intro y hy
          obtain ⟨k, h1, h2⟩ := mem_filterMapZip hy
          exact h 0 (k + 1) t0 y (by omega) rfl (by simpa using h1) rfl
            (by simpa using h2)
        · refine ih ms ?_
          intro k1 k2 t1 t2 hk h1 h2 h3 h4
          exact h (k1 + 1) (k2 + 1) t1 t2 (by omega) (by simpa using h1)
            (by simpa using h2) (by simpa using h3) (by simpa using h4)

/-- Claim C9 (amended): for every overlapping candidate pair the
later-starting (tie: shorter) span is always eliminated — it is the
earlier/longer one only that can survive, and only if no third span
beats it — so the surviving spans are pairwise non-overlapping; and for
`"SELECT --comment\n1"` the comment span `[7,16)` survives, fully covers
`--comment`, and no keyword span survives inside it. -/
theorem claim_C9_theorem :
    (∀ (s : String) (i j : Nat) (ti tj : Tok), i < j →
      (highlightTokens s).get? i = some ti →
      (highlightTokens s).get? j = some tj →
      overlapB ti tj = true →
      (markPass (highlightTokens s)).get? (if beats tj ti then i else j) = some true) ∧
    (∀ s : String,
      List.Pairwise (fun a b => overlapB a b = false) (highlightSurvivors s)) ∧
    ((⟨7, 16, TokStyle.comment⟩ : Tok) ∈ highlightSurvivors "SELECT --comment\n1" ∧
      ∀ t ∈ highlightSurvivors "SELECT --comment\n1", t.style = TokStyle.keyword →
        t.stop ≤ 7 ∨ 16 ≤ t.start) := by
  refine ⟨?_, ?_, ?_⟩
  · intro s i j ti tj hij hti htj hov
    exact markPass_marks_loser (highlightTokens s) i j ti tj hij hti htj hov
  · intro s
    refine pairwise_filterMapZip _ (highlightTokens s) (markPass (highlightTokens s)) ?_
    intro k1 k2 t1 t2 hk h1 h2 h3 h4
    by_cases hov : overlapB t1 t2 = true
    · have hmark := markPass_marks_loser (highlightTokens s) k1 k2 t1 t2 hk h1 h2 hov
      by_cases hb : beats t2 t1 = true
      · rw [if_pos hb] at hmark
        rw [h3] at hmark
        cases hmark
      · rw [if_neg hb] at hmark
        rw [h4] at hmark
        cases hmark
    · simpa using hov
  · exact ⟨by decide, by decide⟩

/-- Claim C9 as stated is false: on the input `'a --b' x` the comment
span `[3,9)` and the operator span `[3,4)` overlap, the comment is the
earlier/longer winner of that pair, yet it does not survive because the
string span `[0,7)` eliminates it through a different pair. -/
theorem claim_C9_counterexample : ¬ClaimC9Prop := by
  intro h
  have hwin := h.1 c9input 0 2 ⟨3, 9, TokStyle.comment⟩ ⟨3, 4, TokStyle.operator⟩
    (by decide) (by decide) (by decide) (by decide)
  exact absurd hwin (by decide)

theorem claim_C9_witness :
    (markPass (highlightTokens "SELECT --comment\n1")).get?
      (if beats (⟨7, 8, TokStyle.operator⟩ : Tok) (⟨7, 16, TokStyle.comment⟩ : Tok)
        then 0 else 2) = some true ∧
    List.Pairwise (fun a b => overlapB a b = false) (highlightSurvivors c9input) :=
  ⟨claim_C9_theorem.1 "SELECT --comment\n1" 0 2 ⟨7, 16, TokStyle.comment⟩
      ⟨7, 8, TokStyle.operator⟩ (by decide) (by decide) (by decide) (by decide),
    claim_C9_theorem.2.1 c9input⟩

/-! ## Claim C8 -/

/-- Claim C8 fails on the code: `FormatSQL` is not idempotent.  On
`c8input` the first pass replaces the newline that terminated the line
comment by a single space, so the second pass lexes the first half of
the following string literal as part of the comment and collapses the
string's own newline as well: the second output differs from the first.
(The first pass has already corrupted the statement by merging code into
a comment, which is the underlying bug.) -/
theorem claim_C8_theorem :
    FormatSQL c8input = some c8out1 ∧ FormatSQL c8out1 = some c8out2 ∧
      c8out2 ≠ c8out1 := by
  refine ⟨by decide, by decide, by decide⟩
